import Mathlib

/-!
# MoltLang translation core: a shallow embedding

This file embeds the MoltLang translation core in Lean 4:

* the position-tracking detector (`_detect_with_positions`),
* the semantic grouper (`_build_semantic_groups`),
* the group flattener (`_flatten_groups`),
* the fallback rule engine (`_apply_fallback_rules`),
* the confidence scorer (`_calculate_confidence`),
* the efficiency computation of the MCP `get_efficiency` handler
  (`handleGetEfficiency` in `mcp-server/src/handlers/translate.ts`),
* the TypeScript syntax validator (`isValidMoltSyntax` in the MCP tool
  definitions module),
* and the token serialization/parsing round trip.

Strings are modelled as `List Char`; Python/JS character positions are list
indices.  Text lowering models `str.lower()` on the ASCII inputs involved.
-/

/-- Convert a string literal to the `List Char` representation used throughout. -/
def chars (s : String) : List Char := s.toList

/-- Models Python `str.lower()` (ASCII). -/
def toLowerList (l : List Char) : List Char := l.map Char.toLower

/-- `kw` occurs in `text` starting at index `p`. -/
def occursAt (text kw : List Char) (p : Nat) : Bool :=
  decide ((text.drop p).take kw.length = kw)

/-- Models Python `text.find(kw, start)`: the least index `≥ start` where `kw`
occurs, or `none` (Python's `-1`). -/
def strFind (text kw : List Char) (start : Nat) : Option Nat :=
  (List.range (text.length + 1)).find? (fun p => decide (start ≤ p) && occursAt text kw p)

/-- All occurrence positions of `kw` in `text`, ascending (Python's repeated
`find` with `start = pos + 1`, so overlapping occurrences are all reported). -/
def allOccs (text kw : List Char) : List Nat :=
  (List.range (text.length + 1)).filter (occursAt text kw)

/-- Models Python `kw in text` (substring containment). -/
def containsSub (text kw : List Char) : Bool := (strFind text kw 0).isSome

/-- Models Python `any(word in text for word in words)`. -/
def containsAny (text : List Char) (words : List (List Char)) : Bool :=
  words.any (containsSub text)

/-- Models Python `s.startswith(pre)`. -/
def startsWithChars (l pre : List Char) : Bool := decide (l.take pre.length = pre)

/-- Word characters, as in the ASCII fragment of the regex class `\w`. -/
def isWordChar (c : Char) : Bool := c.isAlphanum || c = '_'

/-- ASCII whitespace, as in the ASCII fragment of the regex class `\s`. -/
def isWs (c : Char) : Bool :=
  c = ' ' || c = '\t' || c = '\n' || c = '\r' || c = '\x0b' || c = '\x0c'

/-- Length of the leading whitespace run. -/
def leadingWs : List Char → Nat
  | [] => 0
  | c :: r => if isWs c then leadingWs r + 1 else 0

/-- First non-whitespace index at or after `i` (models `\s*` in a regex). -/
def skipWs (l : List Char) (i : Nat) : Nat := i + leadingWs (l.drop i)

/-- Leading decimal digits (models `\d+` capture at a position). -/
def takeDigits (l : List Char) : List Char := l.takeWhile Char.isDigit

/-- A regex word boundary `\b` holds between indices `p - 1` and `p`. -/
def wordBoundaryAt (l : List Char) (p : Nat) : Bool :=
  match p, l.get? (p - 1) with
  | 0, _ => true
  | _ + 1, none => true
  | _ + 1, some c => !isWordChar c

/-- A regex word boundary `\b` holds between indices `p` and `p + 1` looking right. -/
def wordBoundaryAfter (l : List Char) (p : Nat) : Bool :=
  match l.get? p with
  | none => true
  | some c => !isWordChar c

/-- `w` occurs at `p` as a standalone word (word boundaries on both sides). -/
def standaloneWordAt (l w : List Char) (p : Nat) : Bool :=
  occursAt l w p && wordBoundaryAt l p && wordBoundaryAfter l (p + w.length)

/-! ## Data model -/

/-- The closed set of token categories. -/
inductive Cat
  | OP | SRC | RET | PARAM | CTL | ERR | MOD | TYPE
  deriving DecidableEq, Repr

/-- The category's serialized name. -/
def catChars : Cat → List Char
  | .OP => chars "OP"
  | .SRC => chars "SRC"
  | .RET => chars "RET"
  | .PARAM => chars "PARAM"
  | .CTL => chars "CTL"
  | .ERR => chars "ERR"
  | .MOD => chars "MOD"
  | .TYPE => chars "TYPE"

/-- A token type: category plus subtype, mirroring the `TokenType` enum whose
string value is `"CATEGORY:subtype"`. -/
structure TokenType where
  cat : Cat
  sub : List Char
  deriving DecidableEq, Repr

/-- The Python enum's `.value` string, e.g. `"OP:fetch"`. -/
def typeValue (tt : TokenType) : List Char := catChars tt.cat ++ ':' :: tt.sub

/-- A token instance: a type plus an optional captured value. -/
structure Token where
  type : TokenType
  value : Option (List Char)
  deriving DecidableEq, Repr

/-- `DetectedToken` dataclass: a token with the character position and the
keyword that triggered detection. -/
structure DetectedToken where
  token : Token
  position : Nat
  keyword : List Char
  deriving DecidableEq, Repr

/-- An operation group: one operation plus its associated source, returns and
parameters. -/
structure OperationGroup where
  operation : Token
  source : Option Token
  returns : List Token
  params : List Token
  deriving DecidableEq, Repr

/-- The detection result dictionary of `_detect_with_positions`.  Modifier,
control-flow, error and type cues carry no position that later stages consume,
so they are stored as plain tokens. -/
structure Detected where
  modifiers : List Token
  control : List Token
  errors : List Token
  operations : List DetectedToken
  sources : List DetectedToken
  returns : List DetectedToken
  params : List DetectedToken
  types : List Token
  deriving DecidableEq, Repr

/-! ## Token type constants (the Token Catalog entries used by the detector) -/

def OP_FETCH : TokenType := ⟨.OP, chars "fetch"⟩
def OP_PARSE : TokenType := ⟨.OP, chars "parse"⟩
def OP_TRANSFORM : TokenType := ⟨.OP, chars "transform"⟩
def OP_SEARCH : TokenType := ⟨.OP, chars "search"⟩
def OP_VALIDATE : TokenType := ⟨.OP, chars "validate"⟩
def OP_FILTER : TokenType := ⟨.OP, chars "filter"⟩
def OP_AGGREGATE : TokenType := ⟨.OP, chars "aggregate"⟩

def SRC_API : TokenType := ⟨.SRC, chars "api"⟩
def SRC_DB : TokenType := ⟨.SRC, chars "db"⟩
def SRC_FILE : TokenType := ⟨.SRC, chars "file"⟩
def SRC_MEM : TokenType := ⟨.SRC, chars "mem"⟩

def RET_JSON : TokenType := ⟨.RET, chars "json"⟩
def RET_TEXT : TokenType := ⟨.RET, chars "text"⟩
def RET_LIST : TokenType := ⟨.RET, chars "list"⟩
def RET_DICT : TokenType := ⟨.RET, chars "dict"⟩
def RET_BOOL : TokenType := ⟨.RET, chars "bool"⟩
def RET_NUM : TokenType := ⟨.RET, chars "num"⟩

def CTL_TRY : TokenType := ⟨.CTL, chars "try"⟩
def CTL_CATCH : TokenType := ⟨.CTL, chars "catch"⟩
def CTL_FINALLY : TokenType := ⟨.CTL, chars "finally"⟩

def ERR_RETRY : TokenType := ⟨.ERR, chars "retry"⟩
def ERR_LOG : TokenType := ⟨.ERR, chars "log"⟩
def ERR_FAIL : TokenType := ⟨.ERR, chars "fail"⟩

def TYPE_STR : TokenType := ⟨.TYPE, chars "str"⟩
def TYPE_INT : TokenType := ⟨.TYPE, chars "int"⟩
def TYPE_LIST : TokenType := ⟨.TYPE, chars "list"⟩
def TYPE_DICT : TokenType := ⟨.TYPE, chars "dict"⟩

def PARAM_TIMEOUT : TokenType := ⟨.PARAM, chars "timeout"⟩
def PARAM_KEY : TokenType := ⟨.PARAM, chars "key"⟩

def MOD_ASYNC : TokenType := ⟨.MOD, chars "async"⟩
def MOD_PARALLEL : TokenType := ⟨.MOD, chars "parallel"⟩
def MOD_BATCH : TokenType := ⟨.MOD, chars "batch"⟩
def MOD_CACHED : TokenType := ⟨.MOD, chars "cached"⟩

/-! ## Detector (`_detect_with_positions`) -/

/-- Operation keyword table, in the source's dictionary order. -/
def op_keywords : List (TokenType × List (List Char)) :=
  [(OP_FETCH, [chars "fetch", chars "get", chars "retrieve", chars "download"]),
   (OP_PARSE, [chars "parse", chars "analyze", chars "extract"]),
   (OP_TRANSFORM, [chars "transform", chars "convert"]),
   (OP_SEARCH, [chars "search", chars "find", chars "lookup"]),
   (OP_VALIDATE, [chars "validate", chars "verify", chars "check", chars "ensure"]),
   (OP_FILTER, [chars "filter", chars "sift", chars "screen"]),
   (OP_AGGREGATE, [chars "aggregate", chars "combine", chars "merge", chars "summarize"])]

/-- Source keyword table. -/
def src_keywords : List (TokenType × List (List Char)) :=
  [(SRC_API, [chars "api", chars "endpoint", chars "rest"]),
   (SRC_DB, [chars "database", chars "db"]),
   (SRC_FILE, [chars "file", chars "csv file"]),
   (SRC_MEM, [chars "memory", chars "cache", chars "ram"])]

/-- Return-type keyword table. -/
def ret_keywords : List (TokenType × List (List Char)) :=
  [(RET_JSON, [chars "json", chars "object"]),
   (RET_TEXT, [chars "csv", chars "text", chars "plain"]),
   (RET_LIST, [chars "list", chars "array"]),
   (RET_DICT, [chars "dictionary", chars "dict", chars "map"]),
   (RET_BOOL, [chars "boolean", chars "bool"]),
   (RET_NUM, [chars "number", chars "numeric"])]

/-- One detection pass for single-occurrence categories: for each token type,
keep the first matching keyword's first position (the source's
`for keyword in keywords: pos = find; if pos != -1: append; break`). -/
def detectFirstHit (textL : List Char) (table : List (TokenType × List (List Char))) :
    List DetectedToken :=
  table.filterMap fun e =>
    e.2.findSome? fun kw =>
      (strFind textL kw 0).map fun p => ⟨⟨e.1, none⟩, p, kw⟩

def detectOperations (textL : List Char) : List DetectedToken :=
  detectFirstHit textL op_keywords

def detectSources (textL : List Char) : List DetectedToken :=
  detectFirstHit textL src_keywords

/-- Inner keyword loop of return detection: collect all occurrences of each
keyword, and stop as soon as the global `detected["returns"]` accumulator is
non-empty (the source's `if detected["returns"]: break`). -/
def retTypeLoop (textL : List Char) (tt : TokenType) (acc : List DetectedToken) :
    List (List Char) → List DetectedToken
  | [] => acc
  | kw :: kws =>
    let acc2 := acc ++ (allOccs textL kw).map fun p => (⟨⟨tt, none⟩, p, kw⟩ : DetectedToken)
    if acc2.isEmpty then retTypeLoop textL tt acc2 kws else acc2

/-- Return-type detection collects all occurrences, not just the first. -/
def detectReturns (textL : List Char) : List DetectedToken :=
  ret_keywords.foldl (fun acc e => retTypeLoop textL e.1 acc e.2) []

/-- Control-flow detection (`CTL` tokens) by synonym word lists. -/
def detectControl (textL : List Char) : List Token :=
  (if containsAny textL [chars "try", chars "attempt", chars "attempting",
      chars "trying to", chars "give it a shot"] then [⟨CTL_TRY, none⟩] else []) ++
  (if containsAny textL [chars "catch", chars "handle error", chars "on error",
      chars "except", chars "when error", chars "on failure", chars "error handler"]
    then [⟨CTL_CATCH, none⟩] else []) ++
  (if containsAny textL [chars "finally", chars "cleanup", chars "afterwards",
      chars "always do"] then [⟨CTL_FINALLY, none⟩] else [])

/-- Error-handling detection (`ERR` tokens) by synonym word lists. -/
def detectErrors (textL : List Char) : List Token :=
  (if containsAny textL [chars "retry", chars "try again", chars "reattempt",
      chars "attempt again", chars "keep trying"] then [⟨ERR_RETRY, none⟩] else []) ++
  (if containsAny textL [chars "log", chars "logging", chars "record",
      chars "write log", chars "log entry", chars "log error"]
    then [⟨ERR_LOG, none⟩] else []) ++
  (if containsAny textL [chars "fail", chars "failure", chars "throw error",
      chars "raise error", chars "abort on error"] then [⟨ERR_FAIL, none⟩] else [])

/-- Does the regex `\btype\s*[:=]\s*<stem>(?:<suffix>)?\b` match at position `p`? -/
def typeRegexAt (textL stem suffix : List Char) (p : Nat) : Bool :=
  wordBoundaryAt textL p && occursAt textL (chars "type") p &&
  (let q := skipWs textL (p + 4)
   match textL.get? q with
   | some c =>
     (c = ':' || c = '=') &&
     (let r := skipWs textL (q + 1)
      occursAt textL stem r &&
      ((occursAt textL suffix (r + stem.length) &&
        wordBoundaryAfter textL (r + stem.length + suffix.length)) ||
       wordBoundaryAfter textL (r + stem.length)))
   | none => false)

/-- Does the regex `\btype\s*[:=]\s*<stem>(?:<suffix>)?\b` match anywhere? -/
def typeRegexHit (textL stem suffix : List Char) : Bool :=
  (List.range (textL.length + 1)).any (typeRegexAt textL stem suffix)

/-- Type-constraint detection (`TYPE` tokens): synonym word lists or the
`type : <name>` regex forms. -/
def detectTypes (textL : List Char) : List Token :=
  (if containsAny textL [chars "type str", chars "type string", chars "string type",
      chars "as string", chars "to string"] || typeRegexHit textL (chars "str") (chars "ing")
    then [⟨TYPE_STR, none⟩] else []) ++
  (if containsAny textL [chars "type int", chars "integer type", chars "as integer",
      chars "to integer"] || typeRegexHit textL (chars "int") (chars "eger")
    then [⟨TYPE_INT, none⟩] else []) ++
  (if containsAny textL [chars "type list", chars "list type", chars "array type",
      chars "as list", chars "to list"] || typeRegexHit textL (chars "list") []
    then [⟨TYPE_LIST, none⟩] else []) ++
  (if containsAny textL [chars "type dict", chars "dict type", chars "map type",
      chars "as dict", chars "to dict"] || typeRegexHit textL (chars "dict") []
    then [⟨TYPE_DICT, none⟩] else [])

/-- Try to capture a numeric parameter value for cue word `w` at position `p`:
the word must stand alone, then after whitespace and an optional `:`/`=`
separator a non-empty digit run is the captured value. -/
def paramHitAt (textL w : List Char) (p : Nat) : Option (List Char) :=
  if standaloneWordAt textL w p then
    let q := skipWs textL (p + w.length)
    let q2 := match textL.get? q with
      | some c => if c = ':' || c = '=' then skipWs textL (q + 1) else q
      | none => q
    let ds := takeDigits (textL.drop q2)
    if ds.isEmpty then none else some ds
  else none

/-- First position (with its cue word, from `ws`) at which a numeric value is
captured. -/
def firstParamHit (textL : List Char) (ws : List (List Char)) :
    Option (Nat × List Char × List Char) :=
  (List.range (textL.length + 1)).findSome? fun p =>
    ws.findSome? fun w => (paramHitAt textL w p).map fun v => (p, w, v)

/-- Modelled from the spec: the final parameter extraction of `translator.py`
is not under `src/` (the grouping plan never populates `group["params"]`, and
the robustness plan's `key` regex cannot reproduce the repository's passing
test for `"… with ID 12345 …"`).  Following §4.2 — "Parameter detection
additionally extracts a literal value via pattern capture (e.g., a number
following `timeout`, an identifier following `key`)" — and the concrete
scenario `[PARAM:key=12345]`, a number following a standalone `timeout` cue
becomes `PARAM:timeout=value` and a number following a standalone `id`/`key`
cue becomes `PARAM:key=value`, first occurrence per subtype, at the cue's
position. -/
def detectParams (textL : List Char) : List DetectedToken :=
  (match firstParamHit textL [chars "timeout"] with
   | some (p, w, v) => [⟨⟨PARAM_TIMEOUT, some v⟩, p, w⟩]
   | none => []) ++
  (match firstParamHit textL [chars "id", chars "key"] with
   | some (p, w, v) => [⟨⟨PARAM_KEY, some v⟩, p, w⟩]
   | none => [])

/-- Modelled from the spec: modifier detection in `translator.py` precedes the
fragments kept under `src/` and is absent from them.  Per §4.2 modifiers are a
single-occurrence synonym-list category; the keywords are the ones the
repository's documented examples use (`async`, `parallel`, `batch`, `cache`). -/
def detectModifiers (textL : List Char) : List Token :=
  (if containsAny textL [chars "async"] then [⟨MOD_ASYNC, none⟩] else []) ++
  (if containsAny textL [chars "parallel"] then [⟨MOD_PARALLEL, none⟩] else []) ++
  (if containsAny textL [chars "batch"] then [⟨MOD_BATCH, none⟩] else []) ++
  (if containsAny textL [chars "cache"] then [⟨MOD_CACHED, none⟩] else [])

/-- `_detect_with_positions`: run every category's detection on the lowered
text. -/
def detectWithPositions (text : List Char) : Detected :=
  let textL := toLowerList text
  { modifiers := detectModifiers textL
    control := detectControl textL
    errors := detectErrors textL
    operations := detectOperations textL
    sources := detectSources textL
    returns := detectReturns textL
    params := detectParams textL
    types := detectTypes textL }

/-! ## Semantic grouper (`_build_semantic_groups`) -/

/-- Comparison by text position. -/
def posLe (a b : DetectedToken) : Prop := a.position ≤ b.position

instance : DecidableRel posLe := fun a b => Nat.decLe a.position b.position

instance : IsTotal DetectedToken posLe := ⟨fun a b => Nat.le_total a.position b.position⟩

instance : IsTrans DetectedToken posLe := ⟨fun _ _ _ => Nat.le_trans⟩

/-- Stable sort by text position (Python's stable `sorted(key=position)`). -/
def sortByPos (l : List DetectedToken) : List DetectedToken := List.insertionSort posLe l

/-- Source assignment for one operation: the first operation claims the first
source; later operations claim the first unclaimed source strictly between the
previous operation's position and their own. -/
def pickSource (srcs : List (Nat × DetectedToken)) (isFirst : Bool) (prevPos : Nat)
    (op : DetectedToken) (usedS : List Nat) : Option Token × List Nat :=
  match srcs, isFirst with
  | (j0, s0) :: _, true => (some s0.token, j0 :: usedS)
  | _, _ =>
    match srcs.find? (fun js => !usedS.contains js.1 &&
        decide (prevPos < js.2.position) && decide (js.2.position < op.position)) with
    | some (j, s) => (some s.token, j :: usedS)
    | none => (none, usedS)

/-- A return cue belongs to the current operation when its position lies
between the operation and the next one, or (the `"<op-word> to"` pattern) when
it sits within 20 characters after the `" to "` following the operation. -/
def claimCond (textL : List Char) (op : DetectedToken) (nextPos : Nat)
    (ret : DetectedToken) : Bool :=
  (decide (op.position < ret.position) && decide (ret.position < nextPos)) ||
  ((containsSub textL (op.keyword ++ chars " to") ||
    containsSub textL (op.keyword ++ chars "s to")) &&
   match strFind textL (chars " to ") op.position with
   | some toPos => decide (toPos < nextPos) && decide (toPos < ret.position) &&
       decide (ret.position < toPos + 20)
   | none => false)

/-- Claim the return cues for one operation, in index order, threading the
`used_returns` set. -/
def claimReturns (textL : List Char) (rets : List (Nat × DetectedToken))
    (usedR : List Nat) (op : DetectedToken) (nextPos : Nat) : List Token × List Nat :=
  rets.foldl
    (fun acc jr =>
      if !acc.2.contains jr.1 && claimCond textL op nextPos jr.2 then
        (acc.1 ++ [jr.2.token], jr.1 :: acc.2)
      else acc)
    ([], usedR)

/-- The grouper's main loop: one group per operation (operations already sorted
by position), threading the claimed-source and claimed-return index sets.
The `params` field realises §4.3 step 6 — modelled from the spec, since the
grouping code kept under `src/` declares `group["params"]` but never populates
it: a parameter cue attaches to the group whose span (operation position to
next operation position, end of text for the last group) contains its cue
position. -/
def buildGroupsGo (textL : List Char) (srcs rets : List (Nat × DetectedToken))
    (params : List DetectedToken) :
    List DetectedToken → Bool → Nat → List Nat → List Nat →
    List OperationGroup × List Nat
  | [], _, _, _, usedR => ([], usedR)
  | op :: rest, isFirst, prevPos, usedS, usedR =>
    let nextPos : Nat := match rest with
      | [] => textL.length
      | op2 :: _ => op2.position
    let srcPick := pickSource srcs isFirst prevPos op usedS
    let retPick := claimReturns textL rets usedR op nextPos
    let gparams := (params.filter fun p =>
      decide (op.position ≤ p.position) && decide (p.position < nextPos)).map (·.token)
    let restRes := buildGroupsGo textL srcs rets params rest false op.position srcPick.2 retPick.2
    (⟨op.token, srcPick.1, retPick.1, gparams⟩ :: restRes.1, restRes.2)

/-- Append the leftover return tokens to the last group (never dropped). -/
def appendToLast (extra : List Token) : List OperationGroup → List OperationGroup
  | [] => []
  | [g] => [⟨g.operation, g.source, g.returns ++ extra, g.params⟩]
  | g :: g2 :: rest => g :: appendToLast extra (g2 :: rest)

/-- `_build_semantic_groups`: sort cues by position, build one group per
operation in text order, then give unclaimed returns to the last group. -/
def buildSemanticGroups (text : List Char) (d : Detected) : List OperationGroup :=
  let textL := toLowerList text
  let ops := sortByPos d.operations
  let srcs := (sortByPos d.sources).enum
  let rets := (sortByPos d.returns).enum
  let res := buildGroupsGo textL srcs rets d.params ops true 0 [] []
  let leftover := (rets.filter fun jr => !res.2.contains jr.1).map fun jr => jr.2.token
  appendToLast leftover res.1

/-! ## Flattener (`_flatten_groups`) and fallback rules (`_apply_fallback_rules`) -/

/-- The tokens one group contributes: operation, source, returns, params. -/
def groupTokens (g : OperationGroup) : List Token :=
  g.operation :: (g.source.toList ++ g.returns ++ g.params)

/-- `_flatten_groups`: modifiers, control flow, error handling, the operation
groups in order, then type constraints. -/
def flattenGroups (d : Detected) (groups : List OperationGroup) : List Token :=
  d.modifiers ++ d.control ++ d.errors ++ groups.flatMap groupTokens ++ d.types

/-- The caution word list of fallback rule 1. -/
def cautionWords : List (List Char) :=
  [chars "safe", chars "careful", chars "graceful", chars "handle"]

/-- The assurance word list of fallback rule 2. -/
def assuranceWords : List (List Char) :=
  [chars "ensure", chars "guarantee", chars "verify"]

/-- `any(t.type.value.startswith("CTL:") for t in tokens.tokens)`. -/
def hasCtlToken (tokens : List Token) : Bool :=
  tokens.any fun t => startsWithChars (typeValue t.type) (chars "CTL:")

/-- `any(t.type == TokenType.OP_VALIDATE for t in tokens.tokens)`. -/
def hasValidateOp (tokens : List Token) : Bool :=
  tokens.any fun t => t.type == OP_VALIDATE

/-- `_apply_fallback_rules`: caution words insert a try/catch pair when no
control-flow token exists; assurance words append a validate operation when
none exists.  Rules only append, never remove. -/
def applyFallbackRules (text : List Char) (tokens : List Token) : List Token :=
  let textL := toLowerList text
  let t1 :=
    if containsAny textL cautionWords && !hasCtlToken tokens then
      tokens ++ [⟨CTL_TRY, none⟩, ⟨CTL_CATCH, none⟩]
    else tokens
  if containsAny textL assuranceWords && !hasValidateOp t1 then
    t1 ++ [⟨OP_VALIDATE, none⟩]
  else t1

/-- `_analyze_and_translate`: detect, group, flatten, then apply fallback
rules. -/
def analyzeAndTranslate (text : List Char) : List Token :=
  let d := detectWithPositions text
  let groups := buildSemanticGroups text d
  applyFallbackRules text (flattenGroups d groups)

/-! ## Confidence scorer (`_calculate_confidence`) -/

/-- The base score term: `min(0.95, 0.5 + len(tokens) * 0.1)`. -/
def baseScore (n : Nat) : ℚ := min (95/100 : ℚ) (1/2 + (n : ℚ) * (1/10))

/-- `any("OP:" in t.type.value for t in tokens.tokens)`. -/
def hasOperationB (tokens : List Token) : Bool :=
  tokens.any fun t => containsSub (typeValue t.type) (chars "OP:")

/-- `any("SRC:" in t.type.value for t in tokens.tokens)`. -/
def hasSourceB (tokens : List Token) : Bool :=
  tokens.any fun t => containsSub (typeValue t.type) (chars "SRC:")

/-- `any("RET:" in t.type.value for t in tokens.tokens)`. -/
def hasReturnB (tokens : List Token) : Bool :=
  tokens.any fun t => containsSub (typeValue t.type) (chars "RET:")

/-- The semantic-completeness bonus: +0.3 for an operation, +0.3 for a source
or return, +0.2 for both together. -/
def completenessBonus (tokens : List Token) : ℚ :=
  (if hasOperationB tokens then 3/10 else 0) +
  (if hasSourceB tokens || hasReturnB tokens then 3/10 else 0) +
  (if hasOperationB tokens && (hasSourceB tokens || hasReturnB tokens) then 2/10 else 0)

/-- Rounding to two decimals.  Python's `round(x, 2)` uses round-half-even;
on the values reachable here `100 * x` is an integer, so no tie ever occurs
and this agrees with it. -/
def round2 (x : ℚ) : ℚ := ((round (100 * x) : ℤ) : ℚ) / 100

/-- `_calculate_confidence`: 0 for an empty sequence, otherwise the capped sum
of the base score and the completeness bonus, rounded to two decimals. -/
def calculateConfidence (original : List Char) (tokens : List Token) : ℚ :=
  if tokens.isEmpty then 0
  else round2 (min 1 (baseScore tokens.length + completenessBonus tokens))

/-! ## Efficiency (`handleGetEfficiency` in `handlers/translate.ts`) -/

/-- Counts the transitions into whitespace runs. -/
def wsRunsAux : List Char → Bool → Nat
  | [], _ => 0
  | c :: r, inRun =>
    if isWs c then (if inRun then wsRunsAux r true else 1 + wsRunsAux r true)
    else wsRunsAux r false

/-- Models `english.split(/\s+/).length` in JavaScript: the string is cut at
every maximal whitespace run and empty fields are kept, so the count is the
number of whitespace runs plus one (never zero). -/
def wordCountJS (s : List Char) : Nat := wsRunsAux s false + 1

/-- One pass of counting `/\[.*?\]/g` matches: a `]` closes a match when some
`[` is pending with no newline in between (`.` does not match line breaks). -/
def countTokAux : List Char → Bool → Nat
  | [], _ => 0
  | c :: r, opened =>
    if c = '[' then countTokAux r true
    else if c = ']' then (if opened then 1 + countTokAux r false else countTokAux r false)
    else if c = '\n' || c = '\r' then countTokAux r false
    else countTokAux r opened

/-- Models `(molt.match(/\[.*?\]/g) || []).length`. -/
def countMoltTokens (s : List Char) : Nat := countTokAux s false

/-- The numeric efficiency computed by `handleGetEfficiency`:
`englishWords > 0 ? (1 - moltTokens / englishWords) * 100 : 0`. -/
def handleGetEfficiencyValue (english molt : List Char) : ℚ :=
  let englishWords := wordCountJS english
  let moltTokens := countMoltTokens molt
  if 0 < englishWords then (1 - (moltTokens : ℚ) / (englishWords : ℚ)) * 100 else 0

/-- Follows the spec's words: `efficiency = 1 - (token_count / original_word_count)`,
defined only when the word count is positive, reported as 0 otherwise, and
never clamped. -/
def efficiencyRatioSpec (wordCount tokenCount : Nat) : ℚ :=
  if 0 < wordCount then 1 - (tokenCount : ℚ) / (wordCount : ℚ) else 0

/-! ## Syntax validator (`isValidMoltSyntax` in the MCP tools module) -/

/-- Number of occurrences of a character (models `(s.match(/\[/g) || []).length`). -/
def countChar (ch : Char) (s : List Char) : Nat := (s.filter (· = ch)).length

def isUpperAZ (c : Char) : Bool := 'A' ≤ c && c ≤ 'Z'

def isUpperOrUnderscore (c : Char) : Bool := isUpperAZ c || c = '_'

/-- Try to match `\[([A-Z]+):([A-Z_]+)(?:=([^\]]+))?\]` at the head of the
list; on success return the captured category and the remainder. -/
def tokMatchAt : List Char → Option (List Char × List Char)
  | '[' :: rest =>
    let cat := rest.takeWhile isUpperAZ
    if cat.isEmpty then none
    else
      match rest.drop cat.length with
      | ':' :: r2 =>
        let sub := r2.takeWhile isUpperOrUnderscore
        if sub.isEmpty then none
        else
          match r2.drop sub.length with
          | ']' :: rem => some (cat, rem)
          | '=' :: r4 =>
            let v := r4.takeWhile (fun c => !(c = ']'))
            if v.isEmpty then none
            else
              match r4.drop v.length with
              | ']' :: rem => some (cat, rem)
              | _ => none
          | _ => none
      | _ => none
  | _ => none

/-- Left-to-right global scan for the token pattern, returning the categories
of all matches (fuel-indexed; a failed position advances by one character). -/
def scanToks : Nat → List Char → List (List Char)
  | 0, _ => []
  | _, [] => []
  | fuel + 1, c :: rest =>
    match tokMatchAt (c :: rest) with
    | some (cat, rem) => cat :: scanToks fuel rem
    | none => scanToks fuel rest

/-- The valid category names (`Object.values(TOKEN_CATEGORIES)`). -/
def validCategories : List (List Char) :=
  [chars "OP", chars "SRC", chars "RET", chars "PARAM",
   chars "CTL", chars "TYPE", chars "ERR", chars "MOD"]

/-- `isValidMoltSyntax` from the MCP tool definitions: false on an empty
string, false on unbalanced brackets, false when no token matches the
uppercase `[CATEGORY:TYPE]`/`[CATEGORY:TYPE=VALUE]` pattern, and false when a
matched category is not in the catalog. -/
def isValidMoltSyntax (s : List Char) : Bool :=
  if s.isEmpty then false
  else if countChar '[' s ≠ countChar ']' s then false
  else
    let cats := scanToks s.length s
    if cats.isEmpty then false
    else cats.all fun cat => validCategories.contains cat

/-! ## Validator report (spec-modelled `check_syntax`) -/

inductive IssueKind
  | UnbalancedBrackets | MalformedToken | NonCanonicalCase
  deriving DecidableEq, Repr

inductive Severity
  | info | warning | error
  deriving DecidableEq, Repr

structure ValidationIssue where
  kind : IssueKind
  severity : Severity
  deriving DecidableEq, Repr

structure SyntaxReport where
  is_valid : Bool
  issues : List ValidationIssue
  deriving DecidableEq, Repr

def isLowerAZ (c : Char) : Bool := 'a' ≤ c && c ≤ 'z'

def isLetterAZ (c : Char) : Bool := isUpperAZ c || isLowerAZ c

def isLetterOrUnderscore (c : Char) : Bool := isLetterAZ c || c = '_'

/-- Case-insensitive token match at the head of the list: `[category:subtype]`
or `[category:subtype=value]` with letters of either case; on success return
whether the token is in canonical case (uppercase category, lowercase
subtype) and the remainder. -/
def tokMatchAtCI : List Char → Option (Bool × List Char)
  | '[' :: rest =>
    let cat := rest.takeWhile isLetterAZ
    if cat.isEmpty then none
    else
      match rest.drop cat.length with
      | ':' :: r2 =>
        let sub := r2.takeWhile isLetterOrUnderscore
        if sub.isEmpty then none
        else
          let canonical := cat.all isUpperAZ && sub.all (fun c => !isUpperAZ c)
          match r2.drop sub.length with
          | ']' :: rem => some (canonical, rem)
          | '=' :: r4 =>
            let v := r4.takeWhile (fun c => !(c = ']'))
            if v.isEmpty then none
            else
              match r4.drop v.length with
              | ']' :: rem => some (canonical, rem)
              | _ => none
          | _ => none
      | _ => none
  | _ => none

/-- Global scan for case-insensitive token matches. -/
def scanToksCI : Nat → List Char → List Bool
  | 0, _ => []
  | _, [] => []
  | fuel + 1, c :: rest =>
    match tokMatchAtCI (c :: rest) with
    | some (canonical, rem) => canonical :: scanToksCI fuel rem
    | none => scanToksCI fuel rest

/-- Modelled from the spec: the Python validator's `check_syntax`
(`src/moltlang/validator.py`) is not under `src/`; only the TypeScript
`isValidMoltSyntax` is.  Per §4.7: validate bracket balance and the
`[A-Z]+:[a-z_]+` (or with `=value`) shape case-insensitively, report a
warning-level issue when case is not canonical, and make `is_valid` false
exactly when an error-severity issue exists (`UnbalancedBrackets` for
unbalanced input, `MalformedToken` when no token matches the shape). -/
def checkSyntax (s : List Char) : SyntaxReport :=
  if countChar '[' s ≠ countChar ']' s then
    ⟨false, [⟨.UnbalancedBrackets, .error⟩]⟩
  else
    let toks := scanToksCI s.length s
    if toks.isEmpty then ⟨false, [⟨.MalformedToken, .error⟩]⟩
    else ⟨true, (toks.filter (fun canonical => !canonical)).map
      fun _ => ⟨.NonCanonicalCase, .warning⟩⟩

/-! ## Serialization round trip (spec-modelled) -/

/-- The characters allowed in a catalog subtype (`[a-z_]`). -/
def subtypeAlphabet : List Char := chars "abcdefghijklmnopqrstuvwxyz_"

/-- Modelled from the spec: `Token`/`TokenSequence` serialization lives in
`src/moltlang/tokens.py`, which is not under `src/` (the docs only show
`str(seq)` and `registry.get("[OP:FETCH]")`).  Per §3 a catalog-valid token
has a non-empty `[a-z_]` subtype and a value free of the literal `[`/`]`
characters. -/
def validToken (t : Token) : Bool :=
  !t.type.sub.isEmpty &&
  t.type.sub.all (fun c => subtypeAlphabet.contains c) &&
  (match t.value with
   | none => true
   | some v => v.all fun c => !(c = '[') && !(c = ']'))

/-- The bracket body of one token: `CATEGORY:subtype` or `CATEGORY:subtype=value`. -/
def tokenBody (t : Token) : List Char :=
  catChars t.type.cat ++ ':' ::
    (t.type.sub ++
      (match t.value with
       | none => []
       | some v => '=' :: v))

/-- Serialize one token as `[CATEGORY:subtype]` or `[CATEGORY:subtype=value]`. -/
def serializeToken (t : Token) : List Char := '[' :: (tokenBody t ++ [']'])

/-- Serialize a token sequence by concatenating each token's bracket form. -/
def serializeSeq (seq : List Token) : List Char := seq.flatMap serializeToken

/-- Split a list at the first occurrence of `ch`. -/
def splitFirst (ch : Char) : List Char → Option (List Char × List Char)
  | [] => none
  | c :: r =>
    if c = ch then some ([], r)
    else (splitFirst ch r).map fun pr => (c :: pr.1, pr.2)

/-- Catalog lookup of a category name. -/
def catOfChars (l : List Char) : Option Cat :=
  if l = chars "OP" then some .OP
  else if l = chars "SRC" then some .SRC
  else if l = chars "RET" then some .RET
  else if l = chars "PARAM" then some .PARAM
  else if l = chars "CTL" then some .CTL
  else if l = chars "ERR" then some .ERR
  else if l = chars "MOD" then some .MOD
  else if l = chars "TYPE" then some .TYPE
  else none

/-- Parse one bracket body back into a token. -/
def parseSeg (seg : List Char) : Option Token :=
  match splitFirst ':' seg with
  | none => none
  | some (catPart, rest) =>
    match catOfChars catPart with
    | none => none
    | some cat =>
      match splitFirst '=' rest with
      | none => some ⟨⟨cat, rest⟩, none⟩
      | some (sub, v) => some ⟨⟨cat, sub⟩, some v⟩

/-- Fuel-indexed parser of a concatenation of bracket tokens. -/
def parseAux : Nat → List Char → Option (List Token)
  | _, [] => some []
  | 0, _ :: _ => none
  | fuel + 1, c :: rest =>
    if c = '[' then
      match splitFirst ']' rest with
      | none => none
      | some (seg, rem) =>
        match parseSeg seg with
        | none => none
        | some t =>
          match parseAux fuel rem with
          | none => none
          | some ts => some (t :: ts)
    else none

/-- Parse a serialized token string back into a token sequence. -/
def parseTokens (s : List Char) : Option (List Token) := parseAux s.length s

/-! ## Claim inputs -/

/-- The pipeline input of the multi-return scenario. -/
def c1Input : List Char := chars "Parse JSON data from file, validate structure, transform to CSV"

/-- The parameter-extraction scenario input. -/
def c6Input : List Char := chars "Search database for user with ID 12345, return profile as dictionary"

/-- C1: forward translation of "Parse JSON data from file, validate structure,
transform to CSV" orders the operation groups parse → validate → transform,
with the `json` return token in parse's group and the CSV/text return token in
transform's group rather than both at the end; the return detector collects
every occurrence of a return cue (two cues for `json … json`), while operation
detection keeps only the first matching position per subtype (one cue for
`parse … parse`). -/
theorem c1_multi_return_semantic_grouping :
    (detectWithPositions c1Input).operations =
      [⟨⟨OP_PARSE, none⟩, 0, chars "parse"⟩,
       ⟨⟨OP_TRANSFORM, none⟩, 47, chars "transform"⟩,
       ⟨⟨OP_VALIDATE, none⟩, 27, chars "validate"⟩] ∧
    (detectWithPositions c1Input).returns =
      [⟨⟨RET_JSON, none⟩, 6, chars "json"⟩, ⟨⟨RET_TEXT, none⟩, 60, chars "csv"⟩] ∧
    buildSemanticGroups c1Input (detectWithPositions c1Input) =
      [⟨⟨OP_PARSE, none⟩, some ⟨SRC_FILE, none⟩, [⟨RET_JSON, none⟩], []⟩,
       ⟨⟨OP_VALIDATE, none⟩, none, [], []⟩,
       ⟨⟨OP_TRANSFORM, none⟩, none, [⟨RET_TEXT, none⟩], []⟩] ∧
    analyzeAndTranslate c1Input =
      [⟨OP_PARSE, none⟩, ⟨SRC_FILE, none⟩, ⟨RET_JSON, none⟩,
       ⟨OP_VALIDATE, none⟩, ⟨OP_TRANSFORM, none⟩, ⟨RET_TEXT, none⟩] ∧
    (detectWithPositions (chars "json to json")).returns =
      [⟨⟨RET_JSON, none⟩, 0, chars "json"⟩, ⟨⟨RET_JSON, none⟩, 8, chars "json"⟩] ∧
    (detectWithPositions (chars "parse then parse")).operations =
      [⟨⟨OP_PARSE, none⟩, 0, chars "parse"⟩] := by
  decide

/-- C3: the syntax check in the source is **not** case-tolerant —
`isValidMoltSyntax` returns a hard `false` for the lowercase-category string
`"[op:fetch][src:api]"`, and even for the repository's own canonical
lowercase-subtype form `"[OP:fetch][SRC:api]"`; only a fully uppercase token
string passes. -/
theorem c3_case_mismatch_hard_failure :
    isValidMoltSyntax (chars "[op:fetch][src:api]") = false ∧
    isValidMoltSyntax (chars "[OP:fetch][SRC:api]") = false ∧
    isValidMoltSyntax (chars "[OP:FETCH][SRC:API]") = true := by
  decide

/-- C6: for "Search database for user with ID 12345, return profile as
dictionary" the parameter cue at position 30 falls inside the single search
group's span, so the group carries `PARAM:key=12345` and the literal value
`12345` survives into the forward translation's output. -/
theorem c6_param_attachment_value_preserved :
    (detectWithPositions c6Input).params =
      [⟨⟨PARAM_KEY, some (chars "12345")⟩, 30, chars "id"⟩] ∧
    buildSemanticGroups c6Input (detectWithPositions c6Input) =
      [⟨⟨OP_SEARCH, none⟩, some ⟨SRC_DB, none⟩, [⟨RET_DICT, none⟩],
        [⟨PARAM_KEY, some (chars "12345")⟩]⟩] ∧
    (⟨PARAM_KEY, some (chars "12345")⟩ : Token) ∈ analyzeAndTranslate c6Input ∧
    (detectWithPositions c6Input).operations =
      [⟨⟨OP_SEARCH, none⟩, 0, chars "search"⟩] ∧
    c6Input.length = 68 ∧ (0 ≤ 30 ∧ 30 < 68) := by
  decide

/-- C5: the efficiency reported by `handleGetEfficiency` is exactly
`(1 - token_count / word_count) * 100` whenever the word count is positive and
0 otherwise — the percentage form of the spec's ratio — and it is reported
truthfully even when negative: one word against two tokens yields -100%
(ratio -1), with no clamping at 0. -/
theorem c5_efficiency_truthful_unclamped :
    (∀ english molt : List Char,
      handleGetEfficiencyValue english molt =
        100 * efficiencyRatioSpec (wordCountJS english) (countMoltTokens molt)) ∧
    handleGetEfficiencyValue (chars "a") (chars "[OP:fetch][SRC:api]") = -100 ∧
    efficiencyRatioSpec 1 2 = -1 ∧
    wordCountJS (chars "a") = 1 ∧ countMoltTokens (chars "[OP:fetch][SRC:api]") = 2 := by
  have h1 : wordCountJS (chars "a") = 1 := by decide
  have h2 : countMoltTokens (chars "[OP:fetch][SRC:api]") = 2 := by decide
  have hmain : ∀ english molt : List Char,
      handleGetEfficiencyValue english molt =
        100 * efficiencyRatioSpec (wordCountJS english) (countMoltTokens molt) := by
    intro english molt
    unfold handleGetEfficiencyValue efficiencyRatioSpec
    by_cases h : 0 < wordCountJS english
    · simp only [h, if_pos]
      ring
    · simp [h]
  refine ⟨hmain, ?_, ?_, h1, h2⟩
  · rw [hmain, h1, h2]
    norm_num [efficiencyRatioSpec]
  · norm_num [efficiencyRatioSpec]

/-- C7: for every token string whose brackets are unbalanced the syntax check
fails hard — `isValidMoltSyntax` returns false — and on the concrete input
`"[OP:fetch"` the validator's report has `is_valid = false` with exactly one
issue, of severity error and kind `UnbalancedBrackets`. -/
theorem c7_unbalanced_brackets_rejected :
    (∀ s : List Char, countChar '[' s ≠ countChar ']' s →
      isValidMoltSyntax s = false) ∧
    checkSyntax (chars "[OP:fetch") =
      ⟨false, [⟨IssueKind.UnbalancedBrackets, Severity.error⟩]⟩ := by
  constructor
  · intro s h
    by_cases he : s.isEmpty <;> simp [isValidMoltSyntax, he, h]
  · decide

/-- Witness for C7 at the concrete unbalanced input `"[OP:fetch"`. -/
theorem c7_unbalanced_brackets_rejected_witness :
    countChar '[' (chars "[OP:fetch") ≠ countChar ']' (chars "[OP:fetch") ∧
    isValidMoltSyntax (chars "[OP:fetch") = false :=
  ⟨by decide, c7_unbalanced_brackets_rejected.1 (chars "[OP:fetch") (by decide)⟩

/-! ## Helper lemmas for the fallback rule engine -/

lemma hasCtlToken_append (l e : List Token) :
    hasCtlToken (l ++ e) = (hasCtlToken l || hasCtlToken e) := by
  simp [hasCtlToken, List.any_append]

lemma hasValidateOp_append (l e : List Token) :
    hasValidateOp (l ++ e) = (hasValidateOp l || hasValidateOp e) := by
  simp [hasValidateOp, List.any_append]

lemma fallback_keeps_ctl (text : List Char) (tokens : List Token)
    (hc : containsAny (toLowerList text) cautionWords = true) :
    hasCtlToken (applyFallbackRules text tokens) = true := by
  have d1 : hasCtlToken [(⟨CTL_TRY, none⟩ : Token), ⟨CTL_CATCH, none⟩] = true := by decide
  have d2 : hasCtlToken
      [(⟨CTL_TRY, none⟩ : Token), ⟨CTL_CATCH, none⟩, ⟨OP_VALIDATE, none⟩] = true := by decide
  have d3 : hasCtlToken [(⟨OP_VALIDATE, none⟩ : Token)] = false := by decide
  unfold applyFallbackRules
  simp only [hc, Bool.true_and]
  by_cases h1 : hasCtlToken tokens = true
  · simp only [h1, Bool.not_true, if_false]
    split_ifs <;> simp [hasCtlToken_append, h1, d3]
  · have h1' : hasCtlToken tokens = false := by simpa using h1
    simp only [h1', Bool.not_false, if_true]
    split_ifs <;> simp [hasCtlToken_append, d1, d2, d3]

lemma fallback_keeps_validate (text : List Char) (tokens : List Token)
    (he : containsAny (toLowerList text) assuranceWords = true) :
    hasValidateOp (applyFallbackRules text tokens) = true := by
  have d4 : hasValidateOp [(⟨OP_VALIDATE, none⟩ : Token)] = true := by decide
  have d5 : hasValidateOp [(⟨CTL_TRY, none⟩ : Token), ⟨CTL_CATCH, none⟩] = false := by decide
  have d6 : hasValidateOp
      [(⟨CTL_TRY, none⟩ : Token), ⟨CTL_CATCH, none⟩, ⟨OP_VALIDATE, none⟩] = true := by decide
  unfold applyFallbackRules
  simp only [he, Bool.true_and]
  split_ifs with h1 h2 h3
  · simp [hasValidateOp_append, d4, d6]
  · simpa using h2
  · simp [hasValidateOp_append, d4]
  · simpa using h3

lemma fallback_appends (text : List Char) (tokens : List Token) :
    ∃ extra, applyFallbackRules text tokens = tokens ++ extra := by
  simp only [applyFallbackRules]
  split_ifs
  · exact ⟨_, by rw [List.append_assoc]⟩
  · exact ⟨_, rfl⟩
  · exact ⟨_, rfl⟩
  · exact ⟨[], (List.append_nil _).symm⟩

lemma fallback_noop (text : List Char) (l : List Token)
    (h1 : containsAny (toLowerList text) cautionWords = true → hasCtlToken l = true)
    (h2 : containsAny (toLowerList text) assuranceWords = true → hasValidateOp l = true) :
    applyFallbackRules text l = l := by
  unfold applyFallbackRules
  by_cases hc : containsAny (toLowerList text) cautionWords = true
  · by_cases he : containsAny (toLowerList text) assuranceWords = true
    · simp [hc, h1 hc, he, h2 he]
    · have he' : containsAny (toLowerList text) assuranceWords = false := by simpa using he
      simp [hc, h1 hc, he']
  · have hc' : containsAny (toLowerList text) cautionWords = false := by simpa using hc
    by_cases he : containsAny (toLowerList text) assuranceWords = true
    · simp [hc', he, h2 he]
    · have he' : containsAny (toLowerList text) assuranceWords = false := by simpa using he
      simp [hc', he']

/-- C8: the fallback rule engine is idempotent — a second application is the
identity on the first application's output — and additive: it only ever
appends to the token list, never removing tokens. -/
theorem c8_fallback_idempotent_additive :
    ∀ (text : List Char) (tokens : List Token),
      applyFallbackRules text (applyFallbackRules text tokens) =
        applyFallbackRules text tokens ∧
      ∃ extra, applyFallbackRules text tokens = tokens ++ extra := by
  intro text tokens
  exact ⟨fallback_noop text (applyFallbackRules text tokens)
    (fun hc => fallback_keeps_ctl text tokens hc)
    (fun he => fallback_keeps_validate text tokens he),
    fallback_appends text tokens⟩

/-! ## Helper lemmas for grouping order -/

lemma buildGroupsGo_map_operation (textL : List Char)
    (srcs rets : List (Nat × DetectedToken)) (params : List DetectedToken) :
    ∀ (ops : List DetectedToken) (isFirst : Bool) (prevPos : Nat)
      (usedS usedR : List Nat),
      ((buildGroupsGo textL srcs rets params ops isFirst prevPos usedS usedR).1).map
          (·.operation) =
        ops.map (·.token)
  | [], _, _, _, _ => rfl
  | op :: rest, isFirst, prevPos, usedS, usedR => by
    simp only [buildGroupsGo, List.map_cons]
    exact congrArg _ (buildGroupsGo_map_operation textL srcs rets params rest _ _ _ _)

lemma appendToLast_map_operation (extra : List Token) :
    ∀ gs : List OperationGroup,
      (appendToLast extra gs).map (·.operation) = gs.map (·.operation)
  | [] => rfl
  | [_] => rfl
  | g :: g2 :: rest => by
    simp only [appendToLast, List.map_cons]
    exact congrArg _ (appendToLast_map_operation extra (g2 :: rest))

/-- C2: the grouper emits exactly one group per detected operation, in the
order of the operations sorted by text position (a permutation of the detected
operations, sorted under `posLe`), and the flattener emits the groups, each
led by its operation token, in that same order between the fixed
modifier/control/error segment and the type segment — so operations at
positions p1 < p2 < p3 keep their relative order in the output. -/
theorem c2_group_order_preserved :
    ∀ (text : List Char) (d : Detected),
      (buildSemanticGroups text d).map (·.operation) =
        (sortByPos d.operations).map (·.token) ∧
      List.Sorted posLe (sortByPos d.operations) ∧
      (sortByPos d.operations).Perm d.operations ∧
      flattenGroups d (buildSemanticGroups text d) =
        d.modifiers ++ d.control ++ d.errors ++
          (buildSemanticGroups text d).flatMap groupTokens ++ d.types ∧
      (∀ g : OperationGroup, (groupTokens g).head? = some g.operation) := by
  intro text d
  refine ⟨?_, List.sorted_insertionSort posLe d.operations,
    List.perm_insertionSort posLe d.operations, rfl, fun g => rfl⟩
  simp only [buildSemanticGroups]
  rw [appendToLast_map_operation, buildGroupsGo_map_operation]

/-! ## Helper lemmas for the no-operation case -/

lemma cat_of_ite_singleton (t x : Token) (c : Prop) [Decidable c]
    (h : t ∈ (if c then [x] else [])) : t = x := by
  split at h <;> simp_all

lemma detectModifiers_cat (textL : List Char) :
    ∀ t ∈ detectModifiers textL, t.type.cat = Cat.MOD := by
  intro t ht
  unfold detectModifiers at ht
  rcases List.mem_append.mp ht with h | h
  · rcases List.mem_append.mp h with h' | h'
    · rcases List.mem_append.mp h' with h'' | h''
      · rw [cat_of_ite_singleton _ _ _ h'']; rfl
      · rw [cat_of_ite_singleton _ _ _ h'']; rfl
    · rw [cat_of_ite_singleton _ _ _ h']; rfl
  · rw [cat_of_ite_singleton _ _ _ h]; rfl

lemma detectControl_cat (textL : List Char) :
    ∀ t ∈ detectControl textL, t.type.cat = Cat.CTL := by
  intro t ht
  unfold detectControl at ht
  rcases List.mem_append.mp ht with h | h
  · rcases List.mem_append.mp h with h' | h'
    · rw [cat_of_ite_singleton _ _ _ h']; rfl
    · rw [cat_of_ite_singleton _ _ _ h']; rfl
  · rw [cat_of_ite_singleton _ _ _ h]; rfl

lemma detectErrors_cat (textL : List Char) :
    ∀ t ∈ detectErrors textL, t.type.cat = Cat.ERR := by
  intro t ht
  unfold detectErrors at ht
  rcases List.mem_append.mp ht with h | h
  · rcases List.mem_append.mp h with h' | h'
    · rw [cat_of_ite_singleton _ _ _ h']; rfl
    · rw [cat_of_ite_singleton _ _ _ h']; rfl
  · rw [cat_of_ite_singleton _ _ _ h]; rfl

lemma detectTypes_cat (textL : List Char) :
    ∀ t ∈ detectTypes textL, t.type.cat = Cat.TYPE := by
  intro t ht
  unfold detectTypes at ht
  rcases List.mem_append.mp ht with h | h
  · rcases List.mem_append.mp h with h' | h'
    · rcases List.mem_append.mp h' with h'' | h''
      · rw [cat_of_ite_singleton _ _ _ h'']; rfl
      · rw [cat_of_ite_singleton _ _ _ h'']; rfl
    · rw [cat_of_ite_singleton _ _ _ h']; rfl
  · rw [cat_of_ite_singleton _ _ _ h]; rfl

lemma fallback_mem (text : List Char) (l : List Token) (t : Token)
    (ht : t ∈ applyFallbackRules text l) :
    t ∈ l ∨ t = ⟨CTL_TRY, none⟩ ∨ t = ⟨CTL_CATCH, none⟩ ∨ t = ⟨OP_VALIDATE, none⟩ := by
  simp only [applyFallbackRules] at ht
  split_ifs at ht <;> simp_all [List.mem_append] <;> tauto

/-- C10 (amended): when the detector finds no operation cue, no operation
groups are built, so the forward translation's output contains no source,
return, or parameter token — the flattener emits those only through operation
groups; but besides modifier, control-flow, error-handling and type-constraint
tokens, the fallback assurance rule can still append a validate operation
token. -/
theorem c10_no_ops_no_grouped_tokens :
    ∀ text : List Char, (detectWithPositions text).operations = [] →
      buildSemanticGroups text (detectWithPositions text) = [] ∧
      ∀ t ∈ analyzeAndTranslate text,
        (t.type.cat ≠ Cat.SRC ∧ t.type.cat ≠ Cat.RET ∧ t.type.cat ≠ Cat.PARAM) ∧
        (t.type.cat = Cat.MOD ∨ t.type.cat = Cat.CTL ∨ t.type.cat = Cat.ERR ∨
          t.type.cat = Cat.TYPE ∨ t = ⟨OP_VALIDATE, none⟩) := by
  intro text h
  have hgroups : buildSemanticGroups text (detectWithPositions text) = [] := by
    simp [buildSemanticGroups, h, sortByPos, List.insertionSort, buildGroupsGo, appendToLast]
  refine ⟨hgroups, ?_⟩
  intro t ht
  simp only [analyzeAndTranslate] at ht
  rw [hgroups] at ht
  have hcat : t.type.cat = Cat.MOD ∨ t.type.cat = Cat.CTL ∨ t.type.cat = Cat.ERR ∨
      t.type.cat = Cat.TYPE ∨ t = ⟨OP_VALIDATE, none⟩ := by
    rcases fallback_mem _ _ _ ht with hb | rfl | rfl | rfl
    · simp only [flattenGroups, List.flatMap_nil, List.append_nil, List.mem_append] at hb
      rcases hb with ((hm | hc) | he) | hty
      · exact Or.inl (detectModifiers_cat _ _ hm)
      · exact Or.inr (Or.inl (detectControl_cat _ _ hc))
      · exact Or.inr (Or.inr (Or.inl (detectErrors_cat _ _ he)))
      · exact Or.inr (Or.inr (Or.inr (Or.inl (detectTypes_cat _ _ hty))))
    · exact Or.inr (Or.inl rfl)
    · exact Or.inr (Or.inl rfl)
    · exact Or.inr (Or.inr (Or.inr (Or.inr rfl)))
  refine ⟨?_, hcat⟩
  rcases hcat with h1 | h1 | h1 | h1 | rfl
  · rw [h1]; simp
  · rw [h1]; simp
  · rw [h1]; simp
  · rw [h1]; simp
  · refine ⟨?_, ?_, ?_⟩ <;> decide

/-- Counterexample for C10 as stated: for the input "guarantee" the detector
finds no operation cue, yet the forward translation's output is the single
operation token `OP:validate` inserted by the fallback assurance rule — a
token that is neither a modifier, control-flow, error-handling nor
type-constraint token. -/
theorem c10_counterexample_fallback_validate :
    (detectWithPositions (chars "guarantee")).operations = [] ∧
    analyzeAndTranslate (chars "guarantee") = [⟨OP_VALIDATE, none⟩] ∧
    (⟨OP_VALIDATE, none⟩ : Token).type.cat = Cat.OP ∧
    Cat.OP ≠ Cat.MOD ∧ Cat.OP ≠ Cat.CTL ∧ Cat.OP ≠ Cat.ERR ∧ Cat.OP ≠ Cat.TYPE := by
  decide

/-- Witness for C10 (amended) at the concrete operation-free input "hello". -/
theorem c10_no_ops_no_grouped_tokens_witness :
    (detectWithPositions (chars "hello")).operations = [] ∧
    buildSemanticGroups (chars "hello") (detectWithPositions (chars "hello")) = [] :=
  ⟨by decide, (c10_no_ops_no_grouped_tokens (chars "hello") (by decide)).1⟩

/-! ## Helper lemmas for the serialization round trip -/

lemma splitFirst_append (ch : Char) (pre post : List Char) (h : ch ∉ pre) :
    splitFirst ch (pre ++ ch :: post) = some (pre, post) := by
  induction pre with
  | nil => simp [splitFirst]
  | cons c r ih =>
    have hc : ¬(c = ch) := fun hcc => h (hcc ▸ List.mem_cons_self c r)
    have hr : ch ∉ r := fun hrr => h (List.mem_cons_of_mem c hrr)
    simp [splitFirst, hc, ih hr]

lemma splitFirst_of_not_mem (ch : Char) (l : List Char) (h : ch ∉ l) :
    splitFirst ch l = none := by
  induction l with
  | nil => rfl
  | cons c r ih =>
    have hc : ¬(c = ch) := fun hcc => h (hcc ▸ List.mem_cons_self c r)
    have hr : ch ∉ r := fun hrr => h (List.mem_cons_of_mem c hrr)
    simp [splitFirst, hc, ih hr]

lemma catChars_no_special (c : Cat) :
    ':' ∉ catChars c ∧ ']' ∉ catChars c ∧ '=' ∉ catChars c ∧ '[' ∉ catChars c := by
  cases c <;> decide

lemma subtypeAlphabet_no_special (c : Char) (h : c ∈ subtypeAlphabet) :
    c ≠ ':' ∧ c ≠ ']' ∧ c ≠ '=' ∧ c ≠ '[' := by
  fin_cases h <;> decide

lemma catOfChars_catChars (c : Cat) : catOfChars (catChars c) = some c := by
  cases c <;> decide

lemma validToken_sub_facts (t : Token) (h : validToken t = true) :
    ']' ∉ t.type.sub ∧ '=' ∉ t.type.sub ∧ ':' ∉ t.type.sub := by
  have hall : ∀ c ∈ t.type.sub, subtypeAlphabet.contains c = true := by
    have := h
    unfold validToken at this
    simp only [Bool.and_eq_true, List.all_eq_true] at this
    exact this.1.2
  refine ⟨fun hm => ?_, fun hm => ?_, fun hm => ?_⟩ <;>
    have hin := List.mem_of_elem_eq_true (hall _ hm)
  · exact (subtypeAlphabet_no_special _ hin).2.1 rfl
  · exact (subtypeAlphabet_no_special _ hin).2.2.1 rfl
  · exact (subtypeAlphabet_no_special _ hin).1 rfl

lemma validToken_value_facts (t : Token) (h : validToken t = true) :
    ∀ v, t.value = some v → ']' ∉ v := by
  intro v hv hm
  unfold validToken at h
  rw [hv] at h
  simp only [Bool.and_eq_true, List.all_eq_true] at h
  have := h.2 _ hm
  simp at this

lemma tokenBody_no_rbracket (t : Token) (h : validToken t = true) :
    ']' ∉ tokenBody t := by
  intro hm
  unfold tokenBody at hm
  rcases List.mem_append.mp hm with hc | hc
  · exact (catChars_no_special t.type.cat).2.1 hc
  · rcases List.mem_cons.mp hc with hc' | hc'
    · exact absurd hc' (by decide)
    · rcases List.mem_append.mp hc' with hs | hs
      · exact (validToken_sub_facts t h).1 hs
      · match hval : t.value with
        | none => rw [hval] at hs; simp at hs
        | some v =>
          rw [hval] at hs
          rcases List.mem_cons.mp hs with h1 | h1
          · exact absurd h1 (by decide)
          · exact validToken_value_facts t h v hval h1

lemma parseSeg_tokenBody (t : Token) (h : validToken t = true) :
    parseSeg (tokenBody t) = some t := by
  obtain ⟨⟨cat, sub⟩, val⟩ := t
  have hsub := validToken_sub_facts ⟨⟨cat, sub⟩, val⟩ h
  cases val with
  | none =>
    show parseSeg (catChars cat ++ ':' :: (sub ++ [])) = _
    rw [List.append_nil]
    unfold parseSeg
    rw [splitFirst_append _ _ _ (catChars_no_special cat).1]
    dsimp only
    rw [catOfChars_catChars]
    dsimp only
    rw [splitFirst_of_not_mem _ _ hsub.2.1]
  | some v =>
    show parseSeg (catChars cat ++ ':' :: (sub ++ '=' :: v)) = _
    unfold parseSeg
    rw [splitFirst_append _ _ _ (catChars_no_special cat).1]
    dsimp only
    rw [catOfChars_catChars]
    dsimp only
    rw [splitFirst_append _ _ _ hsub.2.1]

lemma serializeSeq_cons (t : Token) (rest : List Token) :
    serializeSeq (t :: rest) = '[' :: (tokenBody t ++ ']' :: serializeSeq rest) := by
  simp [serializeSeq, serializeToken, List.append_assoc]

lemma serializeSeq_length_ge (seq : List Token) :
    seq.length ≤ (serializeSeq seq).length := by
  induction seq with
  | nil => exact Nat.le_refl 0
  | cons t rest ih =>
    rw [serializeSeq_cons]
    simp only [List.length_cons, List.length_append, List.length_cons]
    omega

lemma parseAux_serializeSeq :
    ∀ (seq : List Token) (fuel : Nat), seq.length ≤ fuel →
      (∀ t ∈ seq, validToken t = true) →
      parseAux fuel (serializeSeq seq) = some seq := by
  intro seq
  induction seq with
  | nil =>
    intro fuel _ _
    have : serializeSeq [] = [] := rfl
    rw [this]
    cases fuel <;> rfl
  | cons t rest ih =>
    intro fuel hlen hval
    match fuel with
    | 0 => simp only [List.length_cons] at hlen; omega
    | fuel + 1 =>
      have hts : validToken t = true := hval t (List.mem_cons_self t rest)
      have hrest : ∀ u ∈ rest, validToken u = true :=
        fun u hu => hval u (List.mem_cons_of_mem t hu)
      have hlen2 : rest.length ≤ fuel := by
        simp only [List.length_cons] at hlen
        omega
      rw [serializeSeq_cons]
      show (if '[' = '[' then _ else none) = _
      rw [if_pos rfl]
      rw [splitFirst_append _ _ _ (tokenBody_no_rbracket t hts)]
      dsimp only
      rw [parseSeg_tokenBody t hts]
      dsimp only
      rw [ih fuel hlen2 hrest]

/-- C9: serialization is round-trip stable — for every token sequence built
purely from catalog-valid tokens, parsing the concatenation of each token's
bracket form in order yields a sequence equal to the original:
`parse(serialize(seq)) = seq`. -/
theorem c9_serialize_parse_roundtrip :
    ∀ seq : List Token, (∀ t ∈ seq, validToken t = true) →
      parseTokens (serializeSeq seq) = some seq := by
  intro seq hval
  exact parseAux_serializeSeq seq (serializeSeq seq).length (serializeSeq_length_ge seq) hval

/-- Witness for C9 at a concrete catalog-valid sequence including a valued
parameter token. -/
theorem c9_serialize_parse_roundtrip_witness :
    (∀ t ∈ [(⟨⟨Cat.OP, chars "fetch"⟩, none⟩ : Token), ⟨⟨Cat.SRC, chars "api"⟩, none⟩,
        ⟨⟨Cat.PARAM, chars "key"⟩, some (chars "12345")⟩], validToken t = true) ∧
    parseTokens (serializeSeq [(⟨⟨Cat.OP, chars "fetch"⟩, none⟩ : Token),
        ⟨⟨Cat.SRC, chars "api"⟩, none⟩, ⟨⟨Cat.PARAM, chars "key"⟩, some (chars "12345")⟩]) =
      some [(⟨⟨Cat.OP, chars "fetch"⟩, none⟩ : Token), ⟨⟨Cat.SRC, chars "api"⟩, none⟩,
        ⟨⟨Cat.PARAM, chars "key"⟩, some (chars "12345")⟩] :=
  ⟨by decide, c9_serialize_parse_roundtrip _ (by decide)⟩

/-! ## Helper lemmas for the confidence formula -/

lemma round2_div20 (m : ℤ) : round2 ((m : ℚ) / 20) = (m : ℚ) / 20 := by
  unfold round2
  have h : (100 : ℚ) * ((m : ℚ) / 20) = ((5 * m : ℤ) : ℚ) := by push_cast; ring
  rw [h, round_intCast]
  push_cast
  ring

lemma baseScore_div20 (n : Nat) : ∃ m : ℤ, baseScore n = (m : ℚ) / 20 := by
  rcases le_total (95/100 : ℚ) (1/2 + (n : ℚ) * (1/10)) with h | h
  · exact ⟨19, by rw [baseScore, min_eq_left h]; norm_num⟩
  · exact ⟨10 + 2 * n, by rw [baseScore, min_eq_right h]; push_cast; ring⟩

lemma completenessBonus_div20 (toks : List Token) :
    ∃ m : ℤ, completenessBonus toks = (m : ℚ) / 20 := by
  unfold completenessBonus
  by_cases h1 : hasOperationB toks = true <;>
    by_cases h2 : (hasSourceB toks || hasReturnB toks) = true
  · exact ⟨16, by simp [h1, h2]; norm_num⟩
  · exact ⟨6, by simp [h1, Bool.not_eq_true _ ▸ h2]; simp_all; norm_num⟩
  · exact ⟨6, by simp_all; norm_num⟩
  · exact ⟨0, by simp_all⟩

lemma min_one_div20 (x : ℚ) (h : ∃ m : ℤ, x = (m : ℚ) / 20) :
    ∃ m : ℤ, min 1 x = (m : ℚ) / 20 := by
  obtain ⟨m, rfl⟩ := h
  rcases le_total (1 : ℚ) ((m : ℚ) / 20) with h' | h'
  · exact ⟨20, by rw [min_eq_left h']; norm_num⟩
  · exact ⟨m, min_eq_right h'⟩

/-- C4: the confidence equals the minimum of 1 and the sum of the base term
(capped at 0.95, hence below 1 on its own, and nondecreasing in the token
count) plus 0.3 for an operation token, 0.3 for a source-or-return token and
0.2 for both together; rounding to two decimals never alters the value (it is
always an exact multiple of 0.05), and an empty sequence scores 0. -/
theorem c4_confidence_formula :
    (∀ (original : List Char) (tokens : List Token),
      calculateConfidence original tokens =
        if tokens.isEmpty then 0
        else min 1 (baseScore tokens.length + completenessBonus tokens)) ∧
    (∀ n : Nat, baseScore n < 1) ∧
    (∀ n : Nat, baseScore n ≤ baseScore (n + 1)) ∧
    (∀ original : List Char, calculateConfidence original [] = 0) := by
  refine ⟨?_, ?_, ?_, ?_⟩
  · intro original tokens
    unfold calculateConfidence
    by_cases h : tokens.isEmpty <;> simp only [h, if_true, if_false]
    obtain ⟨m1, e1⟩ := baseScore_div20 tokens.length
    obtain ⟨m2, e2⟩ := completenessBonus_div20 tokens
    have hsum : baseScore tokens.length + completenessBonus tokens =
        ((m1 + m2 : ℤ) : ℚ) / 20 := by rw [e1, e2]; push_cast; ring
    obtain ⟨m, e⟩ := min_one_div20 _ ⟨m1 + m2, hsum⟩
    rw [e, round2_div20]
  · intro n
    calc baseScore n ≤ 95/100 := min_le_left _ _
      _ < 1 := by norm_num
  · intro n
    apply min_le_min le_rfl
    push_cast
    linarith
  · intro original
    simp [calculateConfidence]
